import Mathlib

/-!
Verification of the branch/remote/rebase core of a repository
synchronization layer (asyncgit sync module), shallowly embedded in Lean.

Pure functions of the source are translated directly; stateful operations
are modelled as explicit state passing over a repository state record,
with the fallible primitives of the underlying git library (checkout,
rebase step commit, abort, finish, signature lookup) represented as
explicit oracle inputs, since their outcomes are environment-determined.
-/

namespace Gitui

/-- Modelled from the spec: the error enum of the sync layer lives in a
module that is not part of the embedded sources (only its constructors are
used there). Section 7 of the spec describes it as a closed tagged union
with one variant per kind: NoHead, NoDefaultRemoteFound,
UncommittedChanges, CannotDeleteCurrentBranch, MergeConflict,
Generic(message), and pass-through errors from the primitives library
(represented here by Git carrying a message). -/
inductive Error where
  | NoHead : Error
  | NoDefaultRemoteFound : Error
  | UncommittedChanges : Error
  | CannotDeleteCurrentBranch : Error
  | MergeConflict : Error
  | Generic : String → Error
  | Git : String → Error
deriving DecidableEq, Repr

/-! ## RemoteResolver (src/asyncgit/src/sync/remotes/mod.rs)

`repo.remotes()` yields a string array whose items are `Option<&str>`
(an item is `None` when the remote name is not valid UTF-8); the remote
set is therefore embedded as `List (Option String)`. -/

/-- Constant `DEFAULT_REMOTE_NAME`: the string "origin". -/
def DEFAULT_REMOTE_NAME : String := "origin"

/-- Source `get_default_remote_in_repo`: if a remote named origin exists return
that; else if exactly one remote exists pick that (failing with a generic
error if its name is not representable); else fail inconclusive. -/
def get_default_remote_in_repo (remotes : List (Option String)) :
    Except Error String :=
  if remotes.any (fun r => (r.map (fun s => s == DEFAULT_REMOTE_NAME)).getD false)
  then Except.ok DEFAULT_REMOTE_NAME
  else if remotes.length == 1 then
    match remotes.head?.join with
    | some first_remote => Except.ok first_remote
    | none => Except.error (Error.Generic "no remote found")
  else
    Except.error Error.NoDefaultRemoteFound

/-- Claim C4 — `defaultRemote` is a pure function of the remote set,
evaluated by the tie-break: (a) a remote literally named "origin" wins;
(b) else a unique configured remote is returned; (c) else the call fails
with NoDefaultRemoteFound. In particular {origin, second} yields origin,
{alternate} yields alternate, {alternate, someremote} fails with
NoDefaultRemoteFound. -/
theorem C4_default_remote_tiebreak :
    (∀ names : List String,
      get_default_remote_in_repo (names.map some) =
        if "origin" ∈ names then Except.ok "origin"
        else match names with
          | [only] => Except.ok only
          | _ => Except.error Error.NoDefaultRemoteFound) ∧
    get_default_remote_in_repo [some "origin", some "second"] =
      Except.ok "origin" ∧
    get_default_remote_in_repo [some "alternate"] =
      Except.ok "alternate" ∧
    get_default_remote_in_repo [some "alternate", some "someremote"] =
      Except.error Error.NoDefaultRemoteFound := by
  refine ⟨?_, rfl, rfl, rfl⟩
  intro names
  have hany : ((names.map some).any
      (fun r => (r.map (fun s => s == DEFAULT_REMOTE_NAME)).getD false)) =
      decide ("origin" ∈ names) := by
    induction names with
    | nil => rfl
    | cons a l ih =>
      simp only [List.map_cons, List.any_cons, ih, List.mem_cons,
        Option.map_some, Option.getD_some, DEFAULT_REMOTE_NAME]
      by_cases ha : a = "origin"
      · subst ha; simp
      · have h1 : (a == "origin") = false := by
          simpa using ha
        have h2 : ¬ ("origin" = a) := fun h => ha h.symm
        simp only [DEFAULT_REMOTE_NAME] at ih
        simp [h1, h2, ih]
  simp only [get_default_remote_in_repo, hany, decide_eq_true_eq]
  by_cases h : "origin" ∈ names
  · simp [h, DEFAULT_REMOTE_NAME]
  · rw [if_neg h, if_neg h]
    match names with
    | [] => rfl
    | [only] => rfl
    | a :: b :: rest => rfl

/-- Claim C10 — with zero configured remotes neither tie-break rule
applies, and `defaultRemote` fails with the same NoDefaultRemoteFound
error as the ambiguous multi-remote case. -/
theorem C10_default_remote_empty :
    get_default_remote_in_repo [] = Except.error Error.NoDefaultRemoteFound ∧
    get_default_remote_in_repo [] =
      get_default_remote_in_repo [some "alternate", some "someremote"] := by
  exact ⟨rfl, rfl⟩

/-! ## BranchCatalog: current branch name (src/asyncgit/src/sync/branch/mod.rs)

`repo.branches(None)` yields items that are themselves fallible
(`let b = b?;`), so the enumeration is embedded as
`List (Except Error Branch)`. `Branch.name` is `none` when the branch
name is not valid UTF-8 (the underlying library returns `Ok(None)` then,
and the source applies `.unwrap_or("")`). -/

/-- A branch as seen by the HEAD-name scan: its HEAD flag and its name
(`none` when the name bytes are not valid UTF-8). -/
structure Branch where
  is_head : Bool
  name : Option String
deriving DecidableEq, Repr

/-- Source `get_branch_name_repo`: scan the enumerated branches in order; the
first one flagged as HEAD yields its name (empty string when the name is
not valid UTF-8); an item error propagates; if no branch is flagged as
HEAD the scan fails with NoHead. -/
def get_branch_name_repo : List (Except Error Branch) → Except Error String
  | [] => Except.error Error.NoHead
  | Except.error e :: _ => Except.error e
  | Except.ok b :: rest =>
      if b.is_head then Except.ok (b.name.getD "") else get_branch_name_repo rest

/-- Claim C9 — if some branch is flagged as HEAD but its name is not
valid UTF-8, `currentBranchName` succeeds with the empty string rather
than failing; and (over enumerations whose items all resolve) NoHead is
returned only when no enumerated branch is flagged as HEAD. -/
theorem C9_branch_name_non_utf8 :
    (∀ (pre post : List (Except Error Branch)) (b : Branch),
      (∀ x ∈ pre, ∃ br : Branch, x = Except.ok br ∧ br.is_head = false) →
      b.is_head = true → b.name = none →
      get_branch_name_repo (pre ++ Except.ok b :: post) = Except.ok "") ∧
    (∀ bs : List Branch,
      get_branch_name_repo (bs.map Except.ok) = Except.error Error.NoHead →
      ∀ br ∈ bs, br.is_head = false) := by
  constructor
  · intro pre post b hpre hhead hname
    induction pre with
    | nil =>
      simp [get_branch_name_repo, hhead, hname]
    | cons x rest ih =>
      obtain ⟨br, hx, hbr⟩ := hpre x (List.mem_cons_self x rest)
      subst hx
      simp only [List.cons_append, get_branch_name_repo, hbr, if_false]
      exact ih (fun y hy => hpre y (List.mem_cons_of_mem _ hy))
  · intro bs
    induction bs with
    | nil => intro _ br h; cases h
    | cons x rest ih =>
      intro hres br hmem
      simp only [List.map_cons, get_branch_name_repo] at hres
      by_cases hx : x.is_head
      · simp [hx] at hres
      · rw [if_neg (by simpa using hx)] at hres
        rcases List.mem_cons.mp hmem with h | h
        · subst h; simpa using hx
        · exact ih hres br h

/-- Witness for C9 at concrete inputs: a single HEAD-flagged branch with
a non-UTF-8 name yields the empty string. -/
theorem C9_branch_name_non_utf8_witness :
    get_branch_name_repo [Except.ok ⟨true, none⟩] = Except.ok "" :=
  C9_branch_name_non_utf8.1 [] [] ⟨true, none⟩ (by intro x hx; cases hx) rfl rfl

/-! ## BranchCatalog: branch listing (src/asyncgit/src/sync/branch/mod.rs)

`get_branches_info` maps every enumerated branch through a fallible
resolution closure (`b?`, `peel_to_commit()?`, `bytes2string(...)?`) and
drops the failing entries with `filter_map(Result::ok)` before sorting by
name. A raw enumeration entry carries the data the closure consumes, with
`none` standing for the respective lookup failing. -/

/-- A commit id: an opaque content hash, equality is hash equality. -/
abbrev CommitId := Nat

/-- Struct `LocalBranch`: the local-only details of a listed branch. -/
structure LocalBranch where
  is_head : Bool
  has_upstream : Bool
  remote : Option String
deriving DecidableEq, Repr

/-- Enum `BranchDetails`: local (with details) or remote-tracking. -/
inductive BranchDetails where
  | Local : LocalBranch → BranchDetails
  | Remote : BranchDetails
deriving DecidableEq, Repr

/-- Struct `BranchInfo`: one row of the branch listing. -/
structure BranchInfo where
  name : String
  reference : String
  top_commit_message : String
  top_commit : CommitId
  details : BranchDetails
deriving DecidableEq, Repr

/-- A raw enumeration entry, before the resolution closure runs.
`item_err` models the iterator item itself being an error (`b?`);
`top_commit` is `none` when the reference cannot be peeled to a commit
(e.g. dangling); `reference`/`name` are `none` when the respective bytes
are not valid UTF-8 (`bytes2string` fails). -/
structure RawBranch where
  item_err : Bool
  name : Option String
  reference : Option String
  top_commit : Option (CommitId × String)
  is_head : Bool
  has_upstream : Bool
  upstream_remote : Option String
deriving DecidableEq, Repr

/-- The resolution closure of `get_branches_info`: `none` exactly when
one of the fallible lookups fails, in which case `filter_map(Result::ok)`
drops the entry. -/
def resolve_branch (l : Bool) (b : RawBranch) : Option BranchInfo :=
  if b.item_err then none
  else
    match b.top_commit, b.reference, b.name with
    | some tc, some reference, some name =>
        some { name := name
               reference := reference
               top_commit_message := tc.2
               top_commit := tc.1
               details :=
                 if l then
                   BranchDetails.Local ⟨b.is_head, b.has_upstream, b.upstream_remote⟩
                 else BranchDetails.Remote }
    | _, _, _ => none

/-- Source `get_branches_info`: resolve every entry, drop the failures, sort the
survivors by name (`sort_by(a.name.cmp(&b.name))`, a stable merge sort). -/
def get_branches_info (l : Bool) (raw : List RawBranch) : List BranchInfo :=
  (raw.filterMap (resolve_branch l)).mergeSort
    (fun a b => decide (a.name ≤ b.name))

/-! ## Repository state: checkout, delete (src/asyncgit/src/sync/branch/mod.rs)

The mutable repository state the checkout/delete operations touch: the
local branch refs, the ref HEAD points to, and the working-tree status
entries (tracked changes vs ignored-only entries, so that the
`include_ignored(false)` status scan is expressible). The force-checkout
primitive is environment-fallible and is passed as an oracle flag. Each
operation returns its result together with the final repository state. -/

/-- A local branch reference. -/
structure BranchRef where
  name : String
  reference : String
  top_commit : CommitId
  upstream : Option String
deriving DecidableEq, Repr

/-- The repository state visible to the branch operations. -/
structure Repository where
  branches : List BranchRef
  head_ref : String
  tracked_changes : List String
  ignored_changes : List String
deriving DecidableEq, Repr

/-- Primitive `repo.statuses(...)`: the status scan; ignored entries appear only
when `include_ignored` is set. -/
def statuses (repo : Repository) (include_ignored : Bool) : List String :=
  repo.tracked_changes ++ if include_ignored then repo.ignored_changes else []

/-- Source `checkout_branch`: with a clean `include_ignored(false)` status scan,
repoint HEAD to `branch_ref` and force-checkout; if the checkout step
fails, restore HEAD to the previous ref and surface the error; with a
non-empty scan, fail with UncommittedChanges. -/
def checkout_branch (repo : Repository) (branch_ref : String)
    (checkout_head_fails : Bool) : Except Error Unit × Repository :=
  let cur_ref := repo.head_ref
  if (statuses repo false).isEmpty then
    let repo1 := { repo with head_ref := branch_ref }
    if checkout_head_fails then
      (Except.error (Error.Git "checkout_head failed"),
        { repo1 with head_ref := cur_ref })
    else
      (Except.ok (), repo1)
  else
    (Except.error Error.UncommittedChanges, repo)

/-- The local branch name `checkout_remote_branch` derives from a remote
branch name: `rfind('/')` and slice from that byte position — the slice
keeps the slash character. -/
def lastSlashSuffix : List Char → Option (List Char)
  | [] => none
  | c :: rest =>
      match lastSlashSuffix rest with
      | some s => some s
      | none => if c = '/' then some (c :: rest) else none

/-- Slice `branch.name[pos..]` for `pos = branch.name.rfind('/')`, or the name
unchanged when it contains no slash. -/
def derive_local_name (name : String) : String :=
  match lastSlashSuffix name.toList with
  | some s => String.mk s
  | none => name

/-- Source `checkout_remote_branch`: with a clean status scan, create a local
branch (derived name, remote branch top commit, force = false so an
existing branch of that name fails), set its upstream to the remote
branch, repoint HEAD to it and force-checkout with the same rollback as
`checkout_branch`. -/
def checkout_remote_branch (repo : Repository) (branch : BranchInfo)
    (checkout_head_fails : Bool) : Except Error Unit × Repository :=
  let cur_ref := repo.head_ref
  if !(statuses repo false).isEmpty then
    (Except.error Error.UncommittedChanges, repo)
  else
    let name := derive_local_name branch.name
    if repo.branches.any (fun b => b.name == name) then
      (Except.error (Error.Git "branch already exists"), repo)
    else
      let new_ref := "refs/heads/" ++ name
      let repo1 := { repo with branches :=
        repo.branches ++
          [BranchRef.mk name new_ref branch.top_commit (some branch.name)] }
      let repo2 := { repo1 with head_ref := new_ref }
      if checkout_head_fails then
        (Except.error (Error.Git "checkout_head failed"),
          { repo2 with head_ref := cur_ref })
      else
        (Except.ok (), repo2)

/-- Source `delete_branch`: find the reference; if HEAD does not point to it,
delete it; otherwise refuse with a generic error. -/
def delete_branch (repo : Repository) (branch_ref : String) :
    Except Error Unit × Repository :=
  match repo.branches.find? (fun b => b.reference == branch_ref) with
  | none => (Except.error (Error.Git "reference not found"), repo)
  | some branch =>
      if !(branch.reference == repo.head_ref) then
        (Except.ok (),
          { repo with branches :=
              repo.branches.filter (fun b => b.reference != branch_ref) })
      else
        (Except.error (Error.Generic "You cannot be on the branch you want to delete, switch branch, then delete this branch"), repo)

/-- Operation `currentBranchName` over the repository state: the HEAD-name scan of
`get_branch_name_repo` applied to the enumerated branch refs, a branch
being HEAD-flagged exactly when HEAD points at its reference. -/
def branch_name_of (repo : Repository) : Except Error String :=
  get_branch_name_repo (repo.branches.map
    (fun b => Except.ok (Branch.mk (b.reference == repo.head_ref) (some b.name))))

/-- The raw enumeration of the repository state, for feeding the branch
listing: every entry resolvable. -/
def raw_of (repo : Repository) : List RawBranch :=
  repo.branches.map (fun b =>
    { item_err := false
      name := some b.name
      reference := some b.reference
      top_commit := some (b.top_commit, "")
      is_head := b.reference == repo.head_ref
      has_upstream := b.upstream.isSome
      upstream_remote := none })

/-! ## Theorems on branch listing, checkout and delete -/

/-- Claim C8 — the branch listing is sorted lexicographically by name in
ascending order, and an entry whose reference cannot be resolved is
silently omitted (dropping it from the enumeration does not change the
result, and the listing as a whole still succeeds). -/
theorem C8_list_branches_sorted :
    (∀ (l : Bool) (raw : List RawBranch),
      (get_branches_info l raw).Pairwise (fun a b => a.name ≤ b.name)) ∧
    (∀ (l : Bool) (raw1 raw2 : List RawBranch) (b : RawBranch),
      resolve_branch l b = none →
      get_branches_info l (raw1 ++ b :: raw2) =
        get_branches_info l (raw1 ++ raw2)) := by
  constructor
  · intro l raw
    have h := @List.sorted_mergeSort BranchInfo
      (fun a b => decide (a.name ≤ b.name))
      (fun a b c hab hbc => by
        simp only [decide_eq_true_eq] at hab hbc ⊢
        exact le_trans hab hbc)
      (fun a b => by
        simp only [Bool.or_eq_true, decide_eq_true_eq]
        exact le_total a.name b.name)
      (raw.filterMap (resolve_branch l))
    exact h.imp (fun hab => by simpa using hab)
  · intro l raw1 raw2 b hb
    simp [get_branches_info, List.filterMap_append, List.filterMap_cons, hb]

/-- A resolvable raw entry. -/
def raw_good : RawBranch :=
  { item_err := false
    name := some "master"
    reference := some "refs/heads/master"
    top_commit := some (1, "commit1")
    is_head := true
    has_upstream := false
    upstream_remote := none }

/-- A dangling raw entry: its reference does not peel to a commit. -/
def raw_dangling : RawBranch :=
  { raw_good with
    name := some "dangling"
    reference := some "refs/heads/dangling"
    top_commit := none
    is_head := false }

/-- Witness for C8 at a concrete input: the dangling entry is skipped. -/
theorem C8_list_branches_sorted_witness :
    get_branches_info true [raw_good, raw_dangling] =
      get_branches_info true [raw_good] :=
  C8_list_branches_sorted.2 true [raw_good] [] raw_dangling rfl

/-- The HEAD-name scan finds exactly the first branch whose reference is
the given HEAD ref. -/
theorem branch_name_scan_find (bs : List BranchRef) (hr : String)
    (b : BranchRef)
    (h : bs.find? (fun x => x.reference == hr) = some b) :
    get_branch_name_repo (bs.map
      (fun x => Except.ok (Branch.mk (x.reference == hr) (some x.name)))) =
      Except.ok b.name := by
  induction bs with
  | nil => cases h
  | cons x rest ih =>
    by_cases hx : (x.reference == hr) = true
    · rw [@List.find?_cons_of_pos BranchRef
        (fun y => y.reference == hr) x rest hx] at h
      cases h
      simp [get_branch_name_repo, hx]
    · rw [@List.find?_cons_of_neg BranchRef
        (fun y => y.reference == hr) x rest hx] at h
      simp only [List.map_cons, get_branch_name_repo, hx, if_false]
      exact ih h

/-- Claim C5 — checkout is all-or-nothing: a non-empty tracked status
scan fails with UncommittedChanges leaving the state untouched; a failing
forced checkout after HEAD was repointed restores HEAD before surfacing
the error; and on a clean tree an existing branch ref is checked out and
`currentBranchName` reflects it afterwards (the status scan ignoring
ignored-only entries throughout). -/
theorem C5_checkout_branch_atomic :
    (∀ (repo : Repository) (branch_ref : String) (f : Bool),
      repo.tracked_changes ≠ [] →
      checkout_branch repo branch_ref f =
        (Except.error Error.UncommittedChanges, repo)) ∧
    (∀ (repo : Repository) (branch_ref : String),
      repo.tracked_changes = [] →
      (checkout_branch repo branch_ref true).1 =
        Except.error (Error.Git "checkout_head failed") ∧
      (checkout_branch repo branch_ref true).2.head_ref = repo.head_ref) ∧
    (∀ (repo : Repository) (branch_ref : String) (b : BranchRef),
      repo.tracked_changes = [] →
      repo.branches.find? (fun x => x.reference == branch_ref) = some b →
      checkout_branch repo branch_ref false =
        (Except.ok (), { repo with head_ref := branch_ref }) ∧
      branch_name_of { repo with head_ref := branch_ref } =
        Except.ok b.name) := by
  refine ⟨?_, ?_, ?_⟩
  · intro repo branch_ref f h
    simp [checkout_branch, statuses, h]
  · intro repo branch_ref h
    simp [checkout_branch, statuses, h]
  · intro repo branch_ref b h hfind
    refine ⟨by simp [checkout_branch, statuses, h], ?_⟩
    exact branch_name_scan_find repo.branches branch_ref b hfind

/-- A two-branch repository checked out on master, with an ignored-only
working-tree entry. -/
def repo_two : Repository :=
  { branches := [⟨"master", "refs/heads/master", 1, none⟩,
                 ⟨"test", "refs/heads/test", 1, none⟩]
    head_ref := "refs/heads/master"
    tracked_changes := []
    ignored_changes := ["target"] }

/-- The same repository with an uncommitted tracked change. -/
def repo_two_dirty : Repository :=
  { repo_two with tracked_changes := ["file.txt"] }

/-- Witness for C5 at concrete inputs: dirty tree refused with the state
untouched; failing checkout restores HEAD; clean checkout of
refs/heads/test succeeds and the current branch name becomes test (the
ignored-only entry not counting as dirt). -/
theorem C5_checkout_branch_atomic_witness :
    checkout_branch repo_two_dirty "refs/heads/test" false =
      (Except.error Error.UncommittedChanges, repo_two_dirty) ∧
    ((checkout_branch repo_two "refs/heads/test" true).1 =
      Except.error (Error.Git "checkout_head failed") ∧
     (checkout_branch repo_two "refs/heads/test" true).2.head_ref =
      repo_two.head_ref) ∧
    (checkout_branch repo_two "refs/heads/test" false =
      (Except.ok (), { repo_two with head_ref := "refs/heads/test" }) ∧
     branch_name_of { repo_two with head_ref := "refs/heads/test" } =
      Except.ok "test") :=
  ⟨C5_checkout_branch_atomic.1 repo_two_dirty "refs/heads/test" false
      (by simp [repo_two_dirty, repo_two]),
   C5_checkout_branch_atomic.2.1 repo_two "refs/heads/test" rfl,
   C5_checkout_branch_atomic.2.2 repo_two "refs/heads/test"
      ⟨"test", "refs/heads/test", 1, none⟩ rfl rfl⟩

/-- Every row of the branch listing of a repository state names one of
its branch refs. -/
theorem mem_get_branches_raw_of {l : Bool} {repo : Repository}
    {info : BranchInfo}
    (h : info ∈ get_branches_info l (raw_of repo)) :
    ∃ x ∈ repo.branches, info.name = x.name := by
  rw [get_branches_info, List.mem_mergeSort, raw_of,
    List.filterMap_map] at h
  obtain ⟨x, hx, hres⟩ := List.mem_filterMap.mp h
  refine ⟨x, hx, ?_⟩
  simp only [Function.comp, resolve_branch, if_false] at hres
  by_cases hl : l
  · simp only [hl, if_true] at hres
    cases hres
    rfl
  · simp only [hl, if_false, Bool.false_eq_true] at hres
    cases hres
    rfl

/-- A two-branch repository checked out on master, clean tree. -/
def repo_del : Repository :=
  { branches := [⟨"master", "refs/heads/master", 1, none⟩,
                 ⟨"other", "refs/heads/other", 1, none⟩]
    head_ref := "refs/heads/master"
    tracked_changes := []
    ignored_changes := [] }

/-- Counterexample to claim C6 as stated: deleting the checked-out
branch is refused, but the error returned is the Generic kind carrying
the user-facing message, not the CannotDeleteCurrentBranch kind. -/
theorem C6_counterexample_generic_kind :
    (delete_branch repo_del "refs/heads/master").1 =
      Except.error (Error.Generic "You cannot be on the branch you want to delete, switch branch, then delete this branch") ∧
    Error.Generic "You cannot be on the branch you want to delete, switch branch, then delete this branch" ≠
      Error.CannotDeleteCurrentBranch ∧
    (delete_branch repo_del "refs/heads/master").2 = repo_del := by
  refine ⟨rfl, by decide, rfl⟩

/-- Claim C6 (amended) — deleting the branch HEAD points to fails with a
Generic-kind error (message "You cannot be on the branch you want to
delete, switch branch, then delete this branch") and the branch is not
deleted; deleting a different existing local branch succeeds and that
branch no longer appears in the branch listing (assuming its name named
only the deleted ref). -/
theorem C6_delete_branch_amended :
    (∀ (repo : Repository) (branch_ref : String) (b : BranchRef),
      repo.branches.find? (fun x => x.reference == branch_ref) = some b →
      b.reference = repo.head_ref →
      delete_branch repo branch_ref =
        (Except.error (Error.Generic "You cannot be on the branch you want to delete, switch branch, then delete this branch"), repo)) ∧
    (∀ (repo : Repository) (branch_ref : String) (b : BranchRef),
      repo.branches.find? (fun x => x.reference == branch_ref) = some b →
      b.reference ≠ repo.head_ref →
      (∀ x ∈ repo.branches, x.name = b.name → x.reference = branch_ref) →
      (delete_branch repo branch_ref).1 = Except.ok () ∧
      ∀ info ∈ get_branches_info true
          (raw_of (delete_branch repo branch_ref).2),
        info.name ≠ b.name) := by
  constructor
  · intro repo branch_ref b hfind hhead
    simp [delete_branch, hfind, hhead]
  · intro repo branch_ref b hfind hhead huniq
    have hdel : delete_branch repo branch_ref =
        (Except.ok (), { repo with
          branches := repo.branches.filter (fun x => x.reference != branch_ref) }) := by
      simp [delete_branch, hfind, hhead]
    refine ⟨by rw [hdel], ?_⟩
    intro info hinfo hname
    rw [hdel] at hinfo
    obtain ⟨x, hx, hxname⟩ := mem_get_branches_raw_of hinfo
    have hx2 : x ∈ repo.branches.filter (fun y => y.reference != branch_ref) := hx
    have hxmem : x ∈ repo.branches := (List.mem_filter.mp hx2).1
    have hxref : (x.reference != branch_ref) = true := (List.mem_filter.mp hx2).2
    have : x.reference = branch_ref :=
      huniq x hxmem (by rw [← hxname, hname])
    simp [this] at hxref

/-- Witness for C6 (amended) at concrete inputs: deleting the current
branch of `repo_del` is refused; deleting the other branch succeeds and
"other" disappears from the listing. -/
theorem C6_delete_branch_amended_witness :
    delete_branch repo_del "refs/heads/master" =
      (Except.error (Error.Generic "You cannot be on the branch you want to delete, switch branch, then delete this branch"), repo_del) ∧
    ((delete_branch repo_del "refs/heads/other").1 = Except.ok () ∧
     ∀ info ∈ get_branches_info true
        (raw_of (delete_branch repo_del "refs/heads/other").2),
      info.name ≠ "other") :=
  ⟨C6_delete_branch_amended.1 repo_del "refs/heads/master"
      ⟨"master", "refs/heads/master", 1, none⟩ rfl rfl,
   C6_delete_branch_amended.2 repo_del "refs/heads/other"
      ⟨"other", "refs/heads/other", 1, none⟩ rfl (by decide) (by decide)⟩

/-- The remote-tracking branch origin/foo as a listing row. -/
def remote_foo : BranchInfo :=
  { name := "origin/foo"
    reference := "refs/remotes/origin/foo"
    top_commit_message := "commit2"
    top_commit := 2
    details := BranchDetails.Remote }

/-- A one-branch repository checked out on master, clean tree. -/
def repo_one : Repository :=
  { branches := [⟨"master", "refs/heads/master", 1, none⟩]
    head_ref := "refs/heads/master"
    tracked_changes := []
    ignored_changes := [] }

/-- Claim C7, evaluated at the failing input: the name derivation takes
the slice of the remote branch name starting at the byte position of the
last slash, so "origin/foo" yields "/foo" (slash kept), not "foo"; the
created local branch and repointed HEAD carry that slash. -/
theorem C7_checkout_remote_branch_keeps_slash :
    derive_local_name "origin/foo" = "/foo" ∧
    "/foo" ≠ "foo" ∧
    (checkout_remote_branch repo_one remote_foo false).2.branches.map
        BranchRef.name = ["master", "/foo"] ∧
    (checkout_remote_branch repo_one remote_foo false).2.head_ref =
      "refs/heads//foo" ∧
    derive_local_name "foo" = "foo" := by
  refine ⟨by decide, by decide, by decide, by decide, by decide⟩

/-! ## RebaseEngine (src/asyncgit/src/sync/branch/merge_rebase.rs)

`merge_upstream_rebase` drives the rebase session of the primitives
library: open a session anchored at the upstream commit, advance through
the pending operations, check the index for conflicts after each advance
(abort and fail on conflict), commit each clean step, finish at the end.

The primitives are external and environment-fallible, so the embedding
passes them as an oracle: whether the signature lookup fails, whether
retrieving/committing an operation fails, whether the index is conflicted
after advancing to an operation, and whether abort/finish fail. The
session's pending operations are the commits of the checked-out branch
not reachable from the upstream (the library computes the merge base
itself), replayed oldest first; a replayed commit keeps the original
message (`rebase.commit(None, ...)`) and is parented on the previous new
tip. The on-disk rebase metadata exists from session open until a
successful finish or abort; only finish moves the branch ref, and abort
restores the original branch tip. -/

/-- A commit: id, parent ids, message. -/
structure Commit where
  id : CommitId
  parents : List CommitId
  message : String
deriving DecidableEq, Repr

/-- Repository state as seen by the rebase engine: the branch HEAD points
to (`none` when HEAD is unborn or detached, making the head-name scan
fail with NoHead), the checked-out branch's history (newest first), the
upstream's history (`none` when no upstream is configured), and the Clean
components: on-disk rebase metadata and unresolved index conflicts. -/
structure RebaseRepo where
  head_branch : Option String
  branch_history : List Commit
  upstream_history : Option (List Commit)
  rebase_on_disk : Bool
  index_conflicts : Bool
deriving DecidableEq, Repr

/-- Clean repository state per the spec glossary: no in-progress rebase,
no unresolved index conflicts. -/
def repo_state_clean (r : RebaseRepo) : Bool :=
  !r.rebase_on_disk && !r.index_conflicts

/-- The oracle for the environment-fallible rebase primitives, keyed by
the id of the commit an operation replays. -/
structure RebaseEnv where
  sig_fails : Bool
  op_fails : CommitId → Bool
  conflicts : CommitId → Bool
  commit_fails : CommitId → Bool
  abort_fails : Bool
  finish_fails : Bool

/-- The pending operations of a session anchored at the upstream: the
commits of the branch history (newest first) not present upstream,
replayed oldest first. -/
def rebase_ops (branch_history up : List Commit) : List Commit :=
  (branch_history.takeWhile (fun c => !(up.any (fun u => u.id == c.id)))).reverse

/-- The drive loop of `merge_upstream_rebase`: `while let Some(op) =
rebase.next()`. `orig` is the pre-call repository state (abort restores
its branch tip), `newhist` the history the replayed commits are being
appended to (initially the upstream history), `next` the next fresh
commit id. A failing primitive surfaces its error with the session still
on disk; a conflicted index aborts the session and fails with the
user-facing message; when no operations remain, finish moves the branch
ref to the new tip and clears the on-disk state. -/
def rebase_drive (env : RebaseEnv) (orig : RebaseRepo) :
    List Commit → List Commit → Nat → Except Error Unit × RebaseRepo
  | [], newhist, _ =>
      if env.finish_fails then
        (Except.error (Error.Git "rebase finish failed"),
          { orig with rebase_on_disk := true })
      else
        (Except.ok (), { orig with
          branch_history := newhist
          rebase_on_disk := false
          index_conflicts := false })
  | op :: rest, newhist, next =>
      if env.op_fails op.id then
        (Except.error (Error.Git "rebase op failed"),
          { orig with rebase_on_disk := true })
      else if env.conflicts op.id then
        if env.abort_fails then
          (Except.error (Error.Git "rebase abort failed"),
            { orig with rebase_on_disk := true, index_conflicts := true })
        else
          (Except.error (Error.Generic "conflicts while merging"),
            { orig with rebase_on_disk := false, index_conflicts := false })
      else if env.commit_fails op.id then
        (Except.error (Error.Git "rebase commit failed"),
          { orig with rebase_on_disk := true })
      else
        rebase_drive env orig rest
          ({ id := next
             parents := (newhist.head?.map Commit.id).toList
             message := op.message } :: newhist)
          (next + 1)

/-- Source `merge_upstream_rebase`: reject a non-current branch, resolve the
upstream (failing with the library error when none is configured or it
cannot be peeled to a commit), open the session, obtain a signature, and
drive the session. `next_id` supplies the fresh ids of replayed commits. -/
def merge_upstream_rebase (repo : RebaseRepo) (env : RebaseEnv)
    (branch_name : String) (next_id : Nat) :
    Except Error Unit × RebaseRepo :=
  match repo.head_branch with
  | none => (Except.error Error.NoHead, repo)
  | some head =>
    if head != branch_name then
      (Except.error (Error.Generic "can only rebase in head branch"), repo)
    else
      match repo.upstream_history with
      | none => (Except.error (Error.Git "branch has no upstream"), repo)
      | some up =>
        match up with
        | [] => (Except.error (Error.Git "cannot peel upstream to commit"), repo)
        | _ :: _ =>
          let ops := rebase_ops repo.branch_history up
          let repo1 := { repo with rebase_on_disk := true }
          if env.sig_fails then
            (Except.error (Error.Git "signature lookup failed"), repo1)
          else
            rebase_drive env repo ops up next_id

/-! ## Lemmas about the rebase drive loop -/

/-- takeWhile passes over a prefix every element of which satisfies the
predicate. -/
theorem takeWhile_all_append {α : Type} (p : α → Bool) (L B : List α)
    (hL : ∀ c ∈ L, p c = true) :
    (L ++ B).takeWhile p = L ++ B.takeWhile p := by
  induction L with
  | nil => simp
  | cons x l ih =>
    simp only [List.cons_append, List.takeWhile_cons,
      hL x (List.mem_cons_self x l), if_true]
    rw [ih (fun c hc => hL c (List.mem_cons_of_mem x hc))]

/-- With the branch history decomposed as local-only commits over a base
shared with the upstream, the session's pending operations are exactly
the local-only commits, oldest first. -/
theorem rebase_ops_eq (L B up : List Commit)
    (hL : ∀ c ∈ L, (up.any (fun u => u.id == c.id)) = false)
    (hB : ∀ b bs, B = b :: bs → (up.any (fun u => u.id == b.id)) = true) :
    rebase_ops (L ++ B) up = L.reverse := by
  unfold rebase_ops
  rw [takeWhile_all_append]
  · cases B with
    | nil => simp
    | cons b bs =>
      simp [List.takeWhile_cons, hB b bs rfl]
  · intro c hc
    simp [hL c hc]

/-- When no pending operation fails, conflicts, or fails to commit, and
finish succeeds, the drive loop finishes with the replayed commits (one
per operation, newest first, original messages, each with exactly one
parent) on top of the history it appends to. -/
theorem rebase_drive_ok (env : RebaseEnv) (orig : RebaseRepo)
    (ops : List Commit) :
    ∀ (newhist : List Commit) (next : Nat),
    env.finish_fails = false →
    newhist ≠ [] →
    (∀ c ∈ ops, env.op_fails c.id = false ∧ env.conflicts c.id = false ∧
      env.commit_fails c.id = false) →
    ∃ R : List Commit,
      rebase_drive env orig ops newhist next =
        (Except.ok (), { orig with
          branch_history := R ++ newhist
          rebase_on_disk := false
          index_conflicts := false }) ∧
      R.length = ops.length ∧
      R.map Commit.message = (ops.map Commit.message).reverse ∧
      (∀ c ∈ R, c.parents.length = 1) := by
  induction ops with
  | nil =>
    intro newhist next hfin _ _
    refine ⟨[], ?_, rfl, rfl, by intro c hc; cases hc⟩
    simp [rebase_drive, hfin]
  | cons op rest ih =>
    intro newhist next hfin hne hall
    obtain ⟨hop, hconf, hcomm⟩ := hall op (List.mem_cons_self op rest)
    obtain ⟨R, hR, hlen, hmsg, hpar⟩ :=
      ih ({ id := next
            parents := (newhist.head?.map Commit.id).toList
            message := op.message } :: newhist) (next + 1) hfin
        (by simp)
        (fun c hc => hall c (List.mem_cons_of_mem op hc))
    refine ⟨R ++ [⟨next, (newhist.head?.map Commit.id).toList, op.message⟩],
      ?_, ?_, ?_, ?_⟩
    · simp only [rebase_drive, hop, hconf, hcomm, if_false,
        Bool.false_eq_true]
      rw [hR]
      simp [List.append_assoc]
    · simp [hlen]
    · simp [hmsg]
    · intro c hc
      rcases List.mem_append.mp hc with h | h
      · exact hpar c h
      · simp only [List.mem_singleton] at h
        subst h
        cases newhist with
        | nil => exact absurd rfl hne
        | cons x xs => simp

/-- When no primitive fails (operation retrieval, step commit, abort,
finish all succeed), the drive loop either succeeds with no operation
having conflicted, or detects a conflict, aborts, and returns the
user-facing conflict error with the original state restored and Clean. -/
theorem rebase_drive_error_clean (env : RebaseEnv) (orig : RebaseRepo)
    (hop : ∀ i, env.op_fails i = false)
    (hcomm : ∀ i, env.commit_fails i = false)
    (hab : env.abort_fails = false)
    (hfin : env.finish_fails = false) :
    ∀ (ops newhist : List Commit) (next : Nat),
    ((rebase_drive env orig ops newhist next).1 = Except.ok () ∧
      ∀ c ∈ ops, env.conflicts c.id = false) ∨
    rebase_drive env orig ops newhist next =
      (Except.error (Error.Generic "conflicts while merging"),
       { orig with rebase_on_disk := false, index_conflicts := false }) := by
  intro ops
  induction ops with
  | nil =>
    intro newhist next
    left
    refine ⟨by simp [rebase_drive, hfin], by intro c hc; cases hc⟩
  | cons op rest ih =>
    intro newhist next
    by_cases hc : env.conflicts op.id = true
    · right
      simp [rebase_drive, hop op.id, hc, hab]
    · have hc2 : env.conflicts op.id = false := by
        simpa using hc
      have hstep : rebase_drive env orig (op :: rest) newhist next =
          rebase_drive env orig rest
            ({ id := next
               parents := (newhist.head?.map Commit.id).toList
               message := op.message } :: newhist) (next + 1) := by
        simp [rebase_drive, hop op.id, hc2, hcomm op.id]
      rw [hstep]
      rcases ih ((Commit.mk next ((newhist.head?.map Commit.id).toList)
          op.message) :: newhist) (next + 1) with h | h
      · left
        refine ⟨h.1, ?_⟩
        intro c hcmem
        rcases List.mem_cons.mp hcmem with h2 | h2
        · subst h2; exact hc2
        · exact h.2 c h2
      · right
        exact h

/-! ## Theorems on mergeUpstreamRebase -/

/-- The three commits of the running example: a shared base, one
upstream-only commit, one local-only commit. -/
def c1c : Commit := ⟨1, [], "commit1"⟩

/-- The upstream-only commit of the running example. -/
def c2c : Commit := ⟨2, [1], "commit2"⟩

/-- The local-only commit of the running example. -/
def c3c : Commit := ⟨3, [1], "commit3"⟩

/-- The running example repository: on master, one local-only commit and
one upstream-only commit over a shared base, Clean. -/
def repo_rb : RebaseRepo :=
  { head_branch := some "master"
    branch_history := [c3c, c1c]
    upstream_history := some [c2c, c1c]
    rebase_on_disk := false
    index_conflicts := false }

/-- The oracle with every primitive succeeding and no conflicts. -/
def env_ok : RebaseEnv :=
  { sig_fails := false
    op_fails := fun _ => false
    conflicts := fun _ => false
    commit_fails := fun _ => false
    abort_fails := false
    finish_fails := false }

/-- The oracle where committing a replayed step fails (e.g. the patch is
already applied upstream). -/
def env_commit_fail : RebaseEnv := { env_ok with commit_fails := fun _ => true }

/-- The oracle where every replayed step conflicts. -/
def env_conflict : RebaseEnv := { env_ok with conflicts := fun _ => true }

/-- The oracle where a step conflicts and the abort primitive also
fails. -/
def env_conflict_abort_fail : RebaseEnv :=
  { env_conflict with abort_fails := true }

/-- Counterexample to claim C1 as stated: an error return does not
always leave the repository Clean. When the step-commit primitive fails
mid-session (as when a replayed patch is already applied upstream),
`merge_upstream_rebase` surfaces the error with the rebase still on
disk. -/
theorem C1_counterexample_error_not_clean :
    (∃ e, (merge_upstream_rebase repo_rb env_commit_fail "master" 10).1 =
      Except.error e) ∧
    (merge_upstream_rebase repo_rb env_commit_fail "master" 10).2.rebase_on_disk = true ∧
    repo_state_clean
      (merge_upstream_rebase repo_rb env_commit_fail "master" 10).2 = false :=
  ⟨⟨Error.Git "rebase commit failed", rfl⟩, rfl, rfl⟩

/-- Claim C1 (amended) — whenever `merge_upstream_rebase` returns an
error and no underlying-library primitive failed mid-session (signature
lookup, operation retrieval, step commit, abort and finish all succeed),
the repository state is Clean and the branch history is exactly the
pre-call history; the only such errors are precondition failures before
the session opens and the conflict abort. -/
theorem C1_rebase_error_clean_amended :
    ∀ (repo : RebaseRepo) (env : RebaseEnv) (branch_name : String)
      (next_id : Nat) (e : Error),
    repo.rebase_on_disk = false →
    repo.index_conflicts = false →
    env.sig_fails = false →
    (∀ i, env.op_fails i = false) →
    (∀ i, env.commit_fails i = false) →
    env.abort_fails = false →
    env.finish_fails = false →
    (merge_upstream_rebase repo env branch_name next_id).1 = Except.error e →
    repo_state_clean (merge_upstream_rebase repo env branch_name next_id).2 = true ∧
    (merge_upstream_rebase repo env branch_name next_id).2.branch_history =
      repo.branch_history := by
  intro repo env branch_name next_id e hrb hic hsig hop hcomm hab hfin herr
  have hclean : repo_state_clean repo = true := by
    simp [repo_state_clean, hrb, hic]
  match hhead : repo.head_branch with
  | none =>
    simp only [merge_upstream_rebase, hhead]
    exact ⟨hclean, trivial⟩
  | some head =>
    by_cases hname : (head != branch_name) = true
    · simp only [merge_upstream_rebase, hhead, hname, if_true]
      exact ⟨hclean, trivial⟩
    · match hup : repo.upstream_history with
      | none =>
        simp only [merge_upstream_rebase, hhead, hname, if_false,
          Bool.false_eq_true, hup]
        exact ⟨hclean, trivial⟩
      | some [] =>
        simp only [merge_upstream_rebase, hhead, hname, if_false,
          Bool.false_eq_true, hup]
        exact ⟨hclean, trivial⟩
      | some (u :: us) =>
        have hrw : merge_upstream_rebase repo env branch_name next_id =
            rebase_drive env repo
              (rebase_ops repo.branch_history (u :: us)) (u :: us) next_id := by
          simp [merge_upstream_rebase, hhead, hname, hup, hsig]
        rw [hrw] at herr ⊢
        rcases rebase_drive_error_clean env repo hop hcomm hab hfin
            (rebase_ops repo.branch_history (u :: us)) (u :: us) next_id
          with h | h
        · rw [h.1] at herr
          cases herr
        · rw [h]
          exact ⟨by simp [repo_state_clean], rfl⟩

/-- Witness for C1 (amended) at a concrete input: the conflicting run on
the running example errors, and the state is Clean with the history
unchanged. -/
theorem C1_rebase_error_clean_amended_witness :
    repo_state_clean
      (merge_upstream_rebase repo_rb env_conflict "master" 10).2 = true ∧
    (merge_upstream_rebase repo_rb env_conflict "master" 10).2.branch_history =
      repo_rb.branch_history :=
  C1_rebase_error_clean_amended repo_rb env_conflict "master" 10
    (Error.Generic "conflicts while merging") rfl rfl rfl (fun _ => rfl)
    (fun _ => rfl) rfl rfl rfl

/-- Counterexample to claim C2 as stated: the conflict error is of the
Generic kind carrying "conflicts while merging", not of the
MergeConflict kind; and when the abort primitive itself fails, control
returns with the conflicted rebase still on disk. -/
theorem C2_counterexample_generic_kind :
    ((merge_upstream_rebase repo_rb env_conflict "master" 10).1 =
      Except.error (Error.Generic "conflicts while merging") ∧
     Error.Generic "conflicts while merging" ≠ Error.MergeConflict) ∧
    ((merge_upstream_rebase repo_rb env_conflict_abort_fail "master" 10).2.rebase_on_disk = true ∧
     (merge_upstream_rebase repo_rb env_conflict_abort_fail "master" 10).2.index_conflicts = true) :=
  ⟨⟨rfl, by decide⟩, rfl, rfl⟩

/-- Claim C2 (amended) — if after advancing to an operation the index
has unresolved conflicts, and the abort primitive succeeds (no other
primitive failing either), the engine aborts the session before
returning — restoring the original branch tip — and returns a
Generic-kind error with the user-facing message "conflicts while
merging", leaving no rebase and no conflicted index on disk. -/
theorem C2_rebase_conflict_aborts_amended :
    ∀ (repo : RebaseRepo) (env : RebaseEnv) (branch_name : String)
      (next_id : Nat) (up : List Commit),
    repo.head_branch = some branch_name →
    repo.upstream_history = some up →
    up ≠ [] →
    env.sig_fails = false →
    (∀ i, env.op_fails i = false) →
    (∀ i, env.commit_fails i = false) →
    env.abort_fails = false →
    env.finish_fails = false →
    (∃ c ∈ rebase_ops repo.branch_history up, env.conflicts c.id = true) →
    merge_upstream_rebase repo env branch_name next_id =
      (Except.error (Error.Generic "conflicts while merging"),
       { repo with rebase_on_disk := false, index_conflicts := false }) := by
  intro repo env branch_name next_id up hhead hup hne hsig hop hcomm hab hfin hconf
  match up, hne with
  | u :: us, _ =>
    have hrw : merge_upstream_rebase repo env branch_name next_id =
        rebase_drive env repo
          (rebase_ops repo.branch_history (u :: us)) (u :: us) next_id := by
      simp [merge_upstream_rebase, hhead, hup, hsig]
    rw [hrw]
    rcases rebase_drive_error_clean env repo hop hcomm hab hfin
        (rebase_ops repo.branch_history (u :: us)) (u :: us) next_id
      with h | h
    · obtain ⟨c, hcmem, hctrue⟩ := hconf
      rw [h.2 c hcmem] at hctrue
      cases hctrue
    · exact h

/-- Witness for C2 (amended) at a concrete input: the conflicting run on
the running example aborts with the Generic "conflicts while merging"
error and the original Clean state. -/
theorem C2_rebase_conflict_aborts_amended_witness :
    merge_upstream_rebase repo_rb env_conflict "master" 10 =
      (Except.error (Error.Generic "conflicts while merging"),
       { repo_rb with rebase_on_disk := false, index_conflicts := false }) :=
  C2_rebase_conflict_aborts_amended repo_rb env_conflict "master" 10
    [c2c, c1c] rfl rfl (by decide) rfl (fun _ => rfl) (fun _ => rfl) rfl rfl
    ⟨c3c, by decide, rfl⟩

/-- Claim C3 — on a repository whose current branch has the local-only
commits L over a base B shared with the upstream, the upstream adding U,
a successful (conflict-free, primitive-failure-free) rebase produces
exactly L.length + U.length + B.length commits: the replayed commits
(same count and messages as L, same relative order, each a single-parent
commit, so the history stays linear) on top of the upstream history, and
the repository state is Clean afterwards. -/
theorem C3_rebase_success_linear :
    ∀ (repo : RebaseRepo) (env : RebaseEnv) (branch_name : String)
      (next_id : Nat) (L B U : List Commit),
    repo.head_branch = some branch_name →
    repo.branch_history = L ++ B →
    repo.upstream_history = some (U ++ B) →
    U ++ B ≠ [] →
    (∀ c ∈ L, ∀ u ∈ U ++ B, u.id ≠ c.id) →
    env.sig_fails = false →
    (∀ c ∈ L, env.op_fails c.id = false ∧ env.conflicts c.id = false ∧
      env.commit_fails c.id = false) →
    env.finish_fails = false →
    ∃ R : List Commit,
      merge_upstream_rebase repo env branch_name next_id =
        (Except.ok (), { repo with
          branch_history := R ++ (U ++ B)
          rebase_on_disk := false
          index_conflicts := false }) ∧
      R.length = L.length ∧
      (R ++ (U ++ B)).length = L.length + U.length + B.length ∧
      R.map Commit.message = L.map Commit.message ∧
      (∀ c ∈ R, c.parents.length = 1) := by
  intro repo env branch_name next_id L B U hhead hbh hup hne hdisj hsig hall hfin
  have hops : rebase_ops repo.branch_history (U ++ B) = L.reverse := by
    rw [hbh]
    apply rebase_ops_eq
    · intro c hc
      rw [List.any_eq_false]
      intro u hu
      simpa using hdisj c hc u hu
    · intro b bs hb
      rw [List.any_eq_true]
      refine ⟨b, ?_, by simp⟩
      exact List.mem_append_right U (by rw [hb]; exact List.mem_cons_self b bs)
  obtain ⟨u, us, hupc⟩ : ∃ u us, U ++ B = u :: us := by
    cases hx : U ++ B with
    | nil => exact absurd hx hne
    | cons u us => exact ⟨u, us, rfl⟩
  have hup2 : repo.upstream_history = some (u :: us) := by
    rw [hup, hupc]
  have hrw : merge_upstream_rebase repo env branch_name next_id =
      rebase_drive env repo
        (rebase_ops repo.branch_history (u :: us)) (u :: us) next_id := by
    simp [merge_upstream_rebase, hhead, hup2, hsig]
  have hops2 : rebase_ops repo.branch_history (u :: us) = L.reverse := by
    rw [← hupc]
    exact hops
  rw [hrw, hops2]
  obtain ⟨R, hR, hlen, hmsg, hpar⟩ :=
    rebase_drive_ok env repo L.reverse (u :: us) next_id hfin (by simp)
      (fun c hc => hall c (List.mem_reverse.mp hc))
  refine ⟨R, ?_, ?_, ?_, ?_, hpar⟩
  · rw [hR, hupc]
  · rw [hlen, List.length_reverse]
  · simp only [List.length_append, hlen, List.length_reverse]
    omega
  · rw [hmsg, List.map_reverse, List.reverse_reverse]

/-- Witness for C3 at a concrete input: rebasing the running example
(one local commit over the base, one upstream commit) succeeds with
3 = 1 + 1 + 1 commits, the replayed commit keeping the message
"commit3" with a single parent, and the state Clean. -/
theorem C3_rebase_success_linear_witness :
    ∃ R : List Commit,
      merge_upstream_rebase repo_rb env_ok "master" 10 =
        (Except.ok (), { repo_rb with
          branch_history := R ++ ([c2c] ++ [c1c])
          rebase_on_disk := false
          index_conflicts := false }) ∧
      R.length = [c3c].length ∧
      (R ++ ([c2c] ++ [c1c])).length =
        [c3c].length + [c2c].length + [c1c].length ∧
      R.map Commit.message = [c3c].map Commit.message ∧
      (∀ c ∈ R, c.parents.length = 1) :=
  C3_rebase_success_linear repo_rb env_ok "master" 10 [c3c] [c1c] [c2c]
    rfl rfl rfl (by decide) (by decide) rfl (by decide) rfl

end Gitui
